import Mathlib

/-!
Shallow embedding of `scripts/analyze-coverage.py` (rain-tracker-service).

The script parses an LCOV coverage report and prints per-file coverage.
Text is modelled as `List Char` (via `String.data`); Python floats are
modelled as exact rationals `ℚ`; the report file is modelled as an
`Option String` (reading a missing file is the `none` case and surfaces
as `Except.error`, mirroring the uncaught `open` exception); the
program's standard output is modelled as the list of payload strings
passed to `print`, in order.
-/

namespace RainCoverage

/-- Whitespace test used by Python's `str.strip()` (`record.strip()` at
line 25 of the script): space, tab, newline, carriage return, vertical
tab, form feed. -/
def isWSChar (c : Char) : Bool :=
  c == ' ' || c == '\t' || c == '\n' || c == '\r' || c == '\x0b' || c == '\x0c'

/-- Numeric value of a nonempty digit string, as computed by Python's
`int(...)` on the digit groups captured by the regexes. -/
def digitsToNat (l : List Char) : Nat :=
  l.foldl (fun n c => n * 10 + (c.toNat - '0'.toNat)) 0

/-- Fuel-driven worker for `splitOnL`.  `acc` holds the chars of the
current piece, reversed.  The fuel passed by `splitOnL` always
suffices, since every step consumes at least one character of `s`. -/
def splitOnAuxL (sep : List Char) : Nat → List Char → List Char → List (List Char)
  | 0, s, acc => [acc.reverse ++ s]
  | _ + 1, [], acc => [acc.reverse]
  | fuel + 1, c :: rest, acc =>
    if sep.isPrefixOf (c :: rest) then
      acc.reverse :: splitOnAuxL sep fuel (List.drop sep.length (c :: rest)) []
    else
      splitOnAuxL sep fuel rest (c :: acc)

/-- Python `str.split(sep)` for a nonempty separator: split on each
non-overlapping occurrence of `sep`, left to right, keeping empty
pieces.  Used for `content.split('end_of_record')` (line 21) and, with
separator `'\n'`, to model the `re.MULTILINE` line structure of a
record. -/
def splitOnL (sep s : List Char) : List (List Char) :=
  splitOnAuxL sep (s.length + 1) s []

/-- Index of the first occurrence of `pat` in `s`, if any. -/
def findSubIdx (pat s : List Char) : Option Nat :=
  (List.range (s.length + 1)).find? (fun i => pat.isPrefixOf (List.drop i s))

/-- Python's substring containment test `pat in s` (lines 35 and 52 of
the script, and the `--filter` match at line 121). -/
def containsL (pat s : List Char) : Bool :=
  (findSubIdx pat s).isSome

/-- Everything after the first occurrence of `pat` in `s`; this is
`s.split(pat, 1)[1]` when `pat` occurs (line 53 of the script). -/
def afterFirstL (pat s : List Char) : List Char :=
  match findSubIdx pat s with
  | some i => List.drop (i + pat.length) s
  | none => s

/-- The lines of a record, corresponding to the `^ ... $` anchors of the
`re.MULTILINE` searches inside one record. -/
def linesOf (record : List Char) : List (List Char) :=
  splitOnL ['\n'] record

/-- Match of `^SF:(.+)$` against one line: the line starts with `SF:`
and has a nonempty remainder, which is the captured path (line 28). -/
def sfValue? (l : List Char) : Option (List Char) :=
  if ['S', 'F', ':'].isPrefixOf l ∧ List.drop 3 l ≠ [] then some (List.drop 3 l) else none

/-- Match of `^TAG(\d+)$` against one line: the line is the tag followed
by one or more digits and nothing else; value is the digit group. -/
def tagDigits? (tag : List Char) (l : List Char) : Option Nat :=
  if tag.isPrefixOf l ∧ List.drop tag.length l ≠ [] ∧ (List.drop tag.length l).all Char.isDigit then
    some (digitsToNat (List.drop tag.length l))
  else none

/-- Match of `^LF:(\d+)$` (line 38). -/
def lfValue? : List Char → Option Nat := tagDigits? ['L', 'F', ':']

/-- Match of `^LH:(\d+)$` (line 39). -/
def lhValue? : List Char → Option Nat := tagDigits? ['L', 'H', ':']

/-- Match of `^DA:(\d+),(\d+)` against one line (line 61; note: no `$`,
so trailing characters after the second digit group are allowed).  Both
`\d+` groups are maximal-munch, which coincides with the regex's
backtracking semantics here. -/
def daValue? (l : List Char) : Option (Nat × Nat) :=
  if ['D', 'A', ':'].isPrefixOf l then
    if (List.drop 3 l).takeWhile Char.isDigit ≠ [] ∧
        [','].isPrefixOf (List.drop ((List.drop 3 l).takeWhile Char.isDigit).length (List.drop 3 l)) ∧
        (List.drop (((List.drop 3 l).takeWhile Char.isDigit).length + 1) (List.drop 3 l)).takeWhile Char.isDigit ≠ [] then
      some (digitsToNat ((List.drop 3 l).takeWhile Char.isDigit),
        digitsToNat ((List.drop (((List.drop 3 l).takeWhile Char.isDigit).length + 1) (List.drop 3 l)).takeWhile Char.isDigit))
    else none
  else none

/-- The literal `'/bin/'` of line 35. -/
def binMark : List Char := "/bin/".data

/-- The literal `'/src/'` of line 35. -/
def srcMark : List Char := "/src/".data

/-- The literal `'/rain-tracker-service/'` of line 52. -/
def rootMark : List Char := "/rain-tracker-service/".data

/-- The literal `'end_of_record'` of line 21. -/
def eorMark : List Char := "end_of_record".data

/-- Relative-path extraction of lines 51-55: everything after the first
`'/rain-tracker-service/'` when that marker occurs, else the raw path. -/
def relpathOf (filename : List Char) : List Char :=
  if containsL rootMark filename then afterFirstL rootMark filename else filename

/-- One parsed per-file entry, the tuple built at lines 57-64:
`(relpath, coverage_pct, lh, lf)`, plus the uncovered-line list appended
when `include_lines` is set (`uncovered = none` models a length-4
tuple). -/
structure CoverageRecord where
  path : List Char
  coveragePercent : ℚ
  linesHit : Nat
  linesFound : Nat
  uncovered : Option (List Nat)
deriving DecidableEq

/-- Drop the optional fifth tuple component. -/
def forgetUncovered (r : CoverageRecord) : CoverageRecord :=
  { r with uncovered := none }

/-- Uncovered-line extraction of lines 60-63: the line number of every
`DA:` entry of the record whose hit count is `0`, in order of
appearance. -/
def uncoveredOf (record : List Char) : List Nat :=
  ((linesOf record).filterMap daValue?).filterMap (fun p => if p.2 = 0 then some p.1 else none)

/-- Processing of one record of the report (loop body, lines 24-64):
skip whitespace-only records, records without an `SF:` line, records
whose path contains `/bin/` or lacks `/src/`, records without `LF:` or
`LH:` lines, and records with `LF` equal to `0`; otherwise build the
coverage tuple, with `coverage_pct = (lh / lf) * 100` computed in exact
rational arithmetic in place of Python floats. -/
def parseLcovBlock (include_lines : Bool) (record : List Char) : Option CoverageRecord :=
  if record.all isWSChar then none
  else
    match (linesOf record).findSome? sfValue? with
    | none => none
    | some filename =>
      if containsL binMark filename || !containsL srcMark filename then none
      else
        match (linesOf record).findSome? lfValue?, (linesOf record).findSome? lhValue? with
        | some lf, some lh =>
          if lf = 0 then none
          else
            some { path := relpathOf filename
                   coveragePercent := ((lh : ℚ) / (lf : ℚ)) * 100
                   linesHit := lh
                   linesFound := lf
                   uncovered := if include_lines then some (uncoveredOf record) else none }
        | _, _ => none

/-- The records of the report: `content.split('end_of_record')` (line 21). -/
def lcovBlocks (content : String) : List (List Char) :=
  splitOnL eorMark content.data

/-- The pure core of `parse_lcov` (lines 16-66), applied to the text of
the report file: every record contributes at most one coverage tuple,
in order of appearance. -/
def parse_lcov (content : String) (include_lines : Bool) : List CoverageRecord :=
  (lcovBlocks content).filterMap (parseLcovBlock include_lines)

/-- Reading the report file (line 18): a missing or unreadable file is
modelled as `none` and surfaces as an error, mirroring the uncaught
exception from `open`. -/
def openReport (file : Option String) : Except Unit String :=
  match file with
  | none => Except.error ()
  | some content => Except.ok content

/-- The whole of `parse_lcov` including the file read: fails exactly
when the file cannot be read. -/
def parseLcovFromFile (file : Option String) (include_lines : Bool) :
    Except Unit (List CoverageRecord) :=
  (openReport file).map (fun content => parse_lcov content include_lines)

/-- Stable insertion of `x` into `l`: `x` goes immediately before the
first element whose key is not smaller. -/
def insertByKey {α β : Type} [LinearOrder β] (key : α → β) (x : α) : List α → List α
  | [] => [x]
  | y :: ys => if key y < key x then y :: insertByKey key x ys else x :: y :: ys

/-- Stable insertion sort by a key, ascending.  Python's
`list.sort(key=...)` (line 114) is specified as exactly the stable
ascending sort, so this is its extensional model. -/
def sortByKey {α β : Type} [LinearOrder β] (key : α → β) : List α → List α
  | [] => []
  | x :: xs => insertByKey key x (sortByKey key xs)

/-- The sort performed at line 114: `coverage_data.sort(key=lambda x: x[1])`. -/
def sortRecords (l : List CoverageRecord) : List CoverageRecord :=
  sortByKey (fun r => r.coveragePercent) l

/-- The same sort on records tagged with their parse position, used to
state stability. -/
def sortPairs (l : List (Nat × CoverageRecord)) : List (Nat × CoverageRecord) :=
  sortByKey (fun p => p.2.coveragePercent) l

/-- Tag each element with its position, starting from `n`. -/
def withIdx {α : Type} : Nat → List α → List (Nat × α)
  | _, [] => []
  | n, x :: xs => (n, x) :: withIdx (n + 1) xs

/-- Order in which a stable ascending sort by `key` emits two tagged
elements: strictly smaller key first, and original position first on
equal keys. -/
def stableRel {α β : Type} [LinearOrder β] (key : α → β) (a b : Nat × α) : Prop :=
  key a.2 < key b.2 ∨ (key a.2 = key b.2 ∧ a.1 < b.1)

/-- Python's `sorted` on a list of line numbers (line 75). -/
def natSort (l : List Nat) : List Nat :=
  sortByKey (fun n => n) l

/-- One emitted range token (lines 83-86 and 91-94): the bare number
when the run is a single line, else `start-end`. -/
def rangeTok (start e : Nat) : String :=
  if start = e then toString start else toString start ++ "-" ++ toString e

/-- The accumulation loop of `format_line_ranges` (lines 80-94): `start`
and `e` delimit the current run; a line extending the run by exactly 1
grows it, anything else emits the run and starts a new one; the final
run is always emitted. -/
def flrGo (start e : Nat) : List Nat → List String
  | [] => [rangeTok start e]
  | x :: xs => if x = e + 1 then flrGo start x xs else rangeTok start e :: flrGo x x xs

/-- Python `', '.join(...)` (line 96). -/
def joinCS : List String → String
  | [] => ""
  | [s] => s
  | s :: t :: rest => s ++ ", " ++ joinCS (t :: rest)

/-- `format_line_ranges` (lines 70-96): `"none"` for an empty list,
else the comma-and-space-joined greedy run compression of the sorted
list. -/
def format_line_ranges (line_numbers : List Nat) : String :=
  match natSort line_numbers with
  | [] => "none"
  | x :: xs => joinCS (flrGo x x xs)

/-- Python string format `{s:w}`: left-justified, space-padded to a
minimum width of `w`, never truncated. -/
def padRight (s : String) (w : Nat) : String :=
  s ++ String.mk (List.replicate (w - s.length) ' ')

/-- Python string format `{n:w}` for numbers: right-aligned,
space-padded to a minimum width of `w`. -/
def padLeft (s : String) (w : Nat) : String :=
  String.mk (List.replicate (w - s.length) ' ') ++ s

/-- Number of tenths in `q` after rounding to one decimal place,
half-up.  Models the decimal produced by Python's `{pct:6.1f}` for the
nonnegative values arising here (Python rounds the nearest IEEE double;
the model rounds the exact rational). -/
def fmtTenths (q : ℚ) : Nat :=
  (q * 10 + 1 / 2).floor.toNat

/-- Python `{pct:6.1f}`: one decimal place, right-aligned in a 6-column
field. -/
def fmtPct (q : ℚ) : String :=
  padLeft (toString (fmtTenths q / 10) ++ "." ++ toString (fmtTenths q % 10)) 6

/-- The per-record table line of lines 124 and 137:
`f"{filepath:60} {pct:6.1f}% ({lh:4}/{lf:4})"`. -/
def renderLine (r : CoverageRecord) : String :=
  padRight (String.mk r.path) 60 ++ " " ++ fmtPct r.coveragePercent ++ "% (" ++
    padLeft (toString r.linesHit) 4 ++ "/" ++ padLeft (toString r.linesFound) 4 ++ ")"

/-- The banner line `"=" * 80` (lines 118 and 120). -/
def eqBar : String := String.mk (List.replicate 80 '=')

/-- Output lines for one record in filtered mode (lines 123-130): the
table line, then, when `--uncovered` is active and the record carries
line data, the uncovered-ranges line and a blank line. -/
def recordLines (show_uncovered : Bool) (r : CoverageRecord) : List String :=
  renderLine r ::
    (if show_uncovered then
      match r.uncovered with
      | some u => ["  Uncovered lines: " ++ format_line_ranges u, ""]
      | none => []
    else [])

/-- No-filter output (lines 135-138): the header, then the first 20
sorted records. -/
def noFilterOut (sorted : List CoverageRecord) : List String :=
  "Files with lowest coverage:\n" :: (sorted.take 20).map renderLine

/-- Filtered output (lines 117-133): the three banner lines, every
sorted record whose path contains the pattern, and the no-files message
when none does. -/
def filterOut (p : String) (show_uncovered : Bool) (sorted : List CoverageRecord) : List String :=
  eqBar :: ("FILES MATCHING '" ++ p ++ "':") :: eqBar ::
    ((sorted.filter (fun r => containsL p.data r.path)).flatMap (recordLines show_uncovered) ++
      (if (sorted.filter (fun r => containsL p.data r.path)).isEmpty then
        ["No files found matching '" ++ p ++ "'"]
      else []))

/-- The argument loop of lines 103-112 over `sys.argv[1:]`: `--filter`
takes the following argument as the pattern when one exists (the last
occurrence wins), `--uncovered` sets the flag, anything else — including
a trailing `--filter` with no value — is skipped. -/
def parseArgsLoop : List String → Option String → Bool → Option String × Bool
  | [], fp, su => (fp, su)
  | [a], fp, su => if a = "--uncovered" then (fp, true) else (fp, su)
  | a :: b :: rest, fp, su =>
    if a = "--filter" then parseArgsLoop rest (some b) su
    else if a = "--uncovered" then parseArgsLoop (b :: rest) fp true
    else parseArgsLoop (b :: rest) fp su

/-- Parsed command line: the optional filter pattern and the
`--uncovered` flag. -/
def parseArgs (args : List String) : Option String × Bool :=
  parseArgsLoop args none false

/-- Rendering after argument parsing (lines 113-138).  Python's
`if filter_pattern:` is falsy both for `None` and for an empty pattern
string. -/
def renderMain (fp : Option String) (su : Bool) (content : String) : List String :=
  match fp with
  | some p =>
    if p = "" then noFilterOut (sortRecords (parse_lcov content su))
    else filterOut p su (sortRecords (parse_lcov content su))
  | none => noFilterOut (sortRecords (parse_lcov content su))

/-- The observable output of `main()` (lines 98-138) on a given report
text and argument list (`sys.argv[1:]`): the list of strings passed to
`print`, in order. -/
def mainOutput (content : String) (args : List String) : List String :=
  renderMain (parseArgs args).1 (parseArgs args).2 content

/-- The whole program on a file-system state: reading a missing report
is an error (the process dies with the uncaught exception, hence a
non-zero exit status); otherwise the output of `main()`. -/
def runProgram (file : Option String) (args : List String) : Except Unit (List String) :=
  (openReport file).map (fun content => mainOutput content args)

/-- Maximal runs of consecutive integers of a list, as described by the
spec's range-compression algorithm: a new element extends the current
run exactly when it exceeds the run's last element by 1. -/
def chunkRuns : List Nat → List (List Nat)
  | [] => []
  | [x] => [[x]]
  | x :: y :: xs =>
    match chunkRuns (y :: xs) with
    | [] => [[x]]
    | r :: rs => if y = x + 1 then (x :: r) :: rs else [x] :: r :: rs

/-- Token of one maximal run, as the spec words it: a run of length 1
is the bare number, a longer run is `start-end`. -/
def runToken : List Nat → String
  | [] => ""
  | [x] => toString x
  | x :: y :: xs => toString x ++ "-" ++ toString ((y :: xs).getLastD y)

/-- The claim's description of range compression: sort ascending, split
into maximal consecutive runs, render each run, join with comma and
space.  To be compared with `format_line_ranges`. -/
def claimRender (line_numbers : List Nat) : String :=
  joinCS ((chunkRuns (natSort line_numbers)).map runToken)

/-- The table line as claim C6 words it, with the path column truncated
to exactly 60 characters.  To be compared with `renderLine`. -/
def renderLineTrunc (r : CoverageRecord) : String :=
  String.mk ((r.path ++ List.replicate (60 - r.path.length) ' ').take 60) ++ " " ++
    fmtPct r.coveragePercent ++ "% (" ++
    padLeft (toString r.linesHit) 4 ++ "/" ++ padLeft (toString r.linesFound) 4 ++ ")"

/-- Modelled from the spec: range expansion, the inverse direction of
the compression round-trip of claim C5.  No expansion routine exists in
the source; following the spec's words, each comma-and-space-separated
token is either a bare line number or a closed range `start-end`
expanded to every integer from `start` to `end`. -/
def expandRanges (s : String) : List Nat :=
  (splitOnL [',', ' '] s.data).flatMap (fun tok =>
    match splitOnL ['-'] tok with
    | [a] => [digitsToNat a]
    | [a, b] => List.range' (digitsToNat a) (digitsToNat b - digitsToNat a + 1)
    | _ => [])

/-- Report with a single valid record whose relative path is 70
characters long; used to exhibit that long paths are not truncated. -/
def longPathContent : String :=
  "SF:/x/rain-tracker-service/src/aaaaaaaaaaaaaaaaaaaaaaaaaaaaaaaaaaaaaaaaaaaaaaaaaaaaaaaaaaaaaaa.rs\nLF:10\nLH:5\nend_of_record\n"

/-- Report with two valid records (the spec's two-block scenario). -/
def twoBlockContent : String :=
  "SF:/x/rain-tracker-service/src/a.c\nLF:10\nLH:5\nend_of_record\nSF:/x/rain-tracker-service/src/b.c\nLF:4\nLH:4\nend_of_record\n"

/-! Helper lemmas. -/

theorem mem_of_mem_splitOnAuxL (sep : List Char) :
    ∀ (fuel : Nat) (s acc l : List Char), l ∈ splitOnAuxL sep fuel s acc →
      ∀ c ∈ l, c ∈ acc ∨ c ∈ s := by
  intro fuel
  induction fuel with
  | zero =>
    intro s acc l hl c hc
    simp only [splitOnAuxL, List.mem_singleton] at hl
    subst hl
    rcases List.mem_append.mp hc with h | h
    · exact Or.inl (List.mem_reverse.mp h)
    · exact Or.inr h
  | succ fuel ih =>
    intro s acc l hl c hc
    cases s with
    | nil =>
      simp only [splitOnAuxL, List.mem_singleton] at hl
      subst hl
      exact Or.inl (List.mem_reverse.mp hc)
    | cons c0 rest =>
      simp only [splitOnAuxL] at hl
      by_cases hpre : sep.isPrefixOf (c0 :: rest) = true
      · rw [if_pos hpre] at hl
        rcases List.mem_cons.mp hl with rfl | hl2
        · exact Or.inl (List.mem_reverse.mp hc)
        · rcases ih _ [] l hl2 c hc with h | h
          · exact absurd h (List.not_mem_nil c)
          · exact Or.inr (List.drop_subset _ _ h)
      · rw [if_neg hpre] at hl
        rcases ih rest (c0 :: acc) l hl c hc with h | h
        · rcases List.mem_cons.mp h with rfl | h2
          · exact Or.inr (List.mem_cons_self _ _)
          · exact Or.inl h2
        · exact Or.inr (List.mem_cons_of_mem _ h)

theorem mem_of_mem_splitOnL (sep s l : List Char) (hl : l ∈ splitOnL sep s) {c : Char}
    (hc : c ∈ l) : c ∈ s := by
  rcases mem_of_mem_splitOnAuxL sep (s.length + 1) s [] l hl c hc with h | h
  · exact absurd h (List.not_mem_nil c)
  · exact h

theorem sfValue?_isPrefix {l f : List Char} (h : sfValue? l = some f) :
    ['S', 'F', ':'].isPrefixOf l = true := by
  unfold sfValue? at h
  by_cases hc : ['S', 'F', ':'].isPrefixOf l = true ∧ List.drop 3 l ≠ []
  · exact hc.1
  · rw [if_neg hc] at h
    exact absurd h (by simp)

theorem sf_not_all_ws {b f : List Char} (h : (linesOf b).findSome? sfValue? = some f) :
    b.all isWSChar = false := by
  obtain ⟨line, hmem, hval⟩ := List.exists_of_findSome?_eq_some h
  have hpre := sfValue?_isPrefix hval
  obtain ⟨t, ht⟩ : ∃ t, ['S', 'F', ':'] ++ t = line := List.isPrefixOf_iff_prefix.mp hpre
  have hS : 'S' ∈ line := by
    rw [← ht]
    exact List.mem_append.mpr (Or.inl (by simp))
  have hSb : 'S' ∈ b := mem_of_mem_splitOnL _ _ _ hmem hS
  cases hab : b.all isWSChar with
  | false => rfl
  | true =>
    have := List.all_eq_true.mp hab 'S' hSb
    simp [isWSChar] at this

theorem insertByKey_perm {α β : Type} [LinearOrder β] (key : α → β) (x : α) :
    ∀ l : List α, (insertByKey key x l).Perm (x :: l)
  | [] => List.Perm.refl _
  | y :: ys => by
    unfold insertByKey
    split
    · exact ((insertByKey_perm key x ys).cons y).trans (List.Perm.swap x y ys)
    · exact List.Perm.refl _

theorem sortByKey_perm {α β : Type} [LinearOrder β] (key : α → β) :
    ∀ l : List α, (sortByKey key l).Perm l
  | [] => List.Perm.refl _
  | x :: xs => (insertByKey_perm key x _).trans ((sortByKey_perm key xs).cons x)

theorem insertByKey_ne_nil {α β : Type} [LinearOrder β] (key : α → β) (x : α) (l : List α) :
    insertByKey key x l ≠ [] := by
  cases l with
  | nil => simp [insertByKey]
  | cons y ys =>
    unfold insertByKey
    split <;> simp

theorem natSort_eq_nil_iff (l : List Nat) : natSort l = [] ↔ l = [] := by
  constructor
  · intro h
    cases l with
    | nil => rfl
    | cons x xs => exact absurd h (insertByKey_ne_nil _ x _)
  · rintro rfl
    rfl

theorem insertByKey_map {α β γ : Type} [LinearOrder γ] (f : α → β) (key : β → γ) (x : α) :
    ∀ l : List α, insertByKey key (f x) (l.map f) = (insertByKey (fun a => key (f a)) x l).map f
  | [] => rfl
  | y :: ys => by
    by_cases h : key (f y) < key (f x)
    · simp [insertByKey, h, insertByKey_map f key x ys]
    · simp [insertByKey, h]

theorem sortByKey_map {α β γ : Type} [LinearOrder γ] (f : α → β) (key : β → γ) :
    ∀ l : List α, sortByKey key (l.map f) = (sortByKey (fun a => key (f a)) l).map f
  | [] => rfl
  | x :: xs => by
    simp only [List.map_cons, sortByKey, sortByKey_map f key xs, insertByKey_map]

theorem pairwise_insertByKey_stable {α β : Type} [LinearOrder β] (key : α → β) (x : Nat × α)
    (l : List (Nat × α)) (hl : l.Pairwise (stableRel key))
    (hx : ∀ y ∈ l, key x.2 = key y.2 → x.1 < y.1) :
    (insertByKey (fun p => key p.2) x l).Pairwise (stableRel key) := by
  induction l with
  | nil => simp [insertByKey]
  | cons y ys ih =>
    rw [List.pairwise_cons] at hl
    unfold insertByKey
    by_cases h : key y.2 < key x.2
    · rw [if_pos h, List.pairwise_cons]
      refine ⟨fun z hz => ?_, ih hl.2 (fun z hz hk => hx z (List.mem_cons_of_mem y hz) hk)⟩
      rcases List.mem_cons.mp ((insertByKey_perm (fun p => key p.2) x ys).mem_iff.mp hz) with
        rfl | hzys
      · exact Or.inl h
      · exact hl.1 z hzys
    · rw [if_neg h, List.pairwise_cons]
      have hxy : key x.2 ≤ key y.2 := le_of_not_lt h
      refine ⟨fun z hz => ?_, List.pairwise_cons.mpr hl⟩
      rcases List.mem_cons.mp hz with rfl | hzys
      · rcases lt_or_eq_of_le hxy with hlt | heq
        · exact Or.inl hlt
        · exact Or.inr ⟨heq, hx z (List.mem_cons_self z ys) heq⟩
      · have hyz : key y.2 ≤ key z.2 := by
          rcases hl.1 z hzys with h1 | h2
          · exact le_of_lt h1
          · exact le_of_eq h2.1
        rcases lt_or_eq_of_le (le_trans hxy hyz) with hlt | heq
        · exact Or.inl hlt
        · exact Or.inr ⟨heq, hx z (List.mem_cons_of_mem y hzys) heq⟩

theorem pairwise_sortByKey_stable {α β : Type} [LinearOrder β] (key : α → β) :
    ∀ l : List (Nat × α), l.Pairwise (fun a b => a.1 < b.1) →
      (sortByKey (fun p => key p.2) l).Pairwise (stableRel key)
  | [], _ => List.Pairwise.nil
  | x :: xs, h => by
    rw [List.pairwise_cons] at h
    unfold sortByKey
    exact pairwise_insertByKey_stable key x _ (pairwise_sortByKey_stable key xs h.2)
      (fun y hy _ => h.1 y ((sortByKey_perm _ xs).mem_iff.mp hy))

theorem withIdx_map_snd {α : Type} : ∀ (n : Nat) (l : List α), (withIdx n l).map Prod.snd = l
  | _, [] => rfl
  | n, x :: xs => by simp [withIdx, withIdx_map_snd (n + 1) xs]

theorem fst_le_of_mem_withIdx {α : Type} :
    ∀ (n : Nat) (l : List α) (p : Nat × α), p ∈ withIdx n l → n ≤ p.1
  | _, [], p, h => absurd h (List.not_mem_nil p)
  | n, x :: xs, p, h => by
    rcases List.mem_cons.mp h with rfl | h2
    · exact le_refl n
    · exact le_trans (Nat.le_succ n) (fst_le_of_mem_withIdx (n + 1) xs p h2)

theorem pairwise_fst_withIdx {α : Type} :
    ∀ (n : Nat) (l : List α), (withIdx n l).Pairwise (fun a b => a.1 < b.1)
  | _, [] => List.Pairwise.nil
  | n, x :: xs => by
    rw [withIdx, List.pairwise_cons]
    exact ⟨fun p hp => Nat.lt_of_lt_of_le (Nat.lt_succ_self n)
      (fst_le_of_mem_withIdx (n + 1) xs p hp), pairwise_fst_withIdx (n + 1) xs⟩

theorem chunkRuns_cons_head : ∀ (xs : List Nat) (x : Nat),
    ∃ t rs, chunkRuns (x :: xs) = (x :: t) :: rs
  | [], x => ⟨[], [], rfl⟩
  | y :: ys, x => by
    obtain ⟨t, rs, h⟩ := chunkRuns_cons_head ys y
    by_cases hy : y = x + 1
    · exact ⟨y :: t, rs, by simp only [chunkRuns, h, if_pos hy]⟩
    · exact ⟨[], (y :: t) :: rs, by simp only [chunkRuns, h, if_neg hy]⟩

theorem chunkRuns_shape : ∀ (l : List Nat), ∀ r ∈ chunkRuns l,
    ∃ x t, r = x :: t ∧ t.getLastD x = x + t.length
  | [], r, h => absurd h (List.not_mem_nil r)
  | [x], r, h => by
    simp only [chunkRuns, List.mem_singleton] at h
    exact ⟨x, [], h, rfl⟩
  | x :: y :: ys, r, h => by
    obtain ⟨t, rs, hch⟩ := chunkRuns_cons_head ys y
    have hrec := chunkRuns_shape (y :: ys)
    by_cases hy : y = x + 1
    · simp only [chunkRuns, hch, if_pos hy] at h
      rcases List.mem_cons.mp h with rfl | h2
      · obtain ⟨a, s, heq, hlast⟩ := hrec (y :: t) (hch ▸ List.mem_cons_self _ _)
        injection heq with h5 h6
        subst h5
        subst h6
        refine ⟨x, y :: t, rfl, ?_⟩
        rw [List.getLastD_cons, hlast, hy, List.length_cons]
        omega
      · exact hrec r (hch ▸ List.mem_cons_of_mem _ h2)
    · simp only [chunkRuns, hch, if_neg hy] at h
      rcases List.mem_cons.mp h with rfl | h2
      · exact ⟨x, [], rfl, rfl⟩
      · exact hrec r (hch ▸ h2)

theorem rangeTok_eq_runToken (x : Nat) (t : List Nat) (hlast : t.getLastD x = x + t.length) :
    rangeTok x ((x :: t).getLastD 0) = runToken (x :: t) := by
  cases t with
  | nil => simp [rangeTok, runToken, List.getLastD_cons]
  | cons y ys0 =>
    rw [List.getLastD_cons] at hlast
    rw [List.getLastD_cons, List.getLastD_cons]
    have hne : x ≠ ys0.getLastD y := by
      rw [hlast, List.length_cons]
      omega
    simp only [rangeTok, runToken, if_neg hne, List.getLastD_cons]

theorem flrGo_chunk : ∀ (ys : List Nat) (start e : Nat) (t : List Nat) (rs : List (List Nat)),
    chunkRuns (e :: ys) = (e :: t) :: rs →
      flrGo start e ys = rangeTok start ((e :: t).getLastD 0) :: rs.map runToken
  | [], start, e, t, rs, h => by
    simp only [chunkRuns] at h
    injection h with h1 h2
    injection h1 with h3 h4
    subst h4
    subst h2
    simp [flrGo, List.getLastD_cons]
  | x :: xs, start, e, t, rs, h => by
    obtain ⟨t0, rs0, hch⟩ := chunkRuns_cons_head xs x
    by_cases hx : x = e + 1
    · simp only [chunkRuns, hch, if_pos hx] at h
      injection h with h1 h2
      injection h1 with h3 h4
      subst h4
      subst h2
      simp only [flrGo, if_pos hx]
      rw [flrGo_chunk xs start x t0 rs0 hch]
      rw [List.getLastD_cons, List.getLastD_cons, List.getLastD_cons]
    · simp only [chunkRuns, hch, if_neg hx] at h
      injection h with h1 h2
      injection h1 with h3 h4
      subst h4
      subst h2
      simp only [flrGo, if_neg hx]
      rw [flrGo_chunk xs x x t0 rs0 hch]
      rw [List.map_cons]
      refine congrArg (fun z => rangeTok start ([e].getLastD 0) :: z) ?_
      refine congrArg (fun z => z :: rs0.map runToken) ?_
      obtain ⟨a, s, heq, hlast⟩ := chunkRuns_shape (x :: xs) (x :: t0) (hch ▸ List.mem_cons_self _ _)
      injection heq with h5 h6
      subst h5
      subst h6
      exact rangeTok_eq_runToken x t0 hlast

theorem format_line_ranges_eq_claimRender (l : List Nat) (hl : l ≠ []) :
    format_line_ranges l = claimRender l := by
  obtain ⟨x, xs, hsort⟩ : ∃ x xs, natSort l = x :: xs := by
    cases hs : natSort l with
    | nil => exact absurd (natSort_eq_nil_iff l |>.mp hs) hl
    | cons x xs => exact ⟨x, xs, rfl⟩
  obtain ⟨t, rs, hch⟩ := chunkRuns_cons_head xs x
  unfold format_line_ranges claimRender
  simp only [hsort]
  rw [flrGo_chunk xs x x t rs hch, hch, List.map_cons]
  refine congrArg joinCS (congrArg (fun z => z :: rs.map runToken) ?_)
  obtain ⟨a, s, heq, hlast⟩ := chunkRuns_shape (x :: xs) (x :: t) (hch ▸ List.mem_cons_self _ _)
  injection heq with h5 h6
  subst h5
  subst h6
  exact rangeTok_eq_runToken x t hlast

theorem parseArgsLoop_append_filter :
    ∀ (l : List String) (fp : Option String) (su : Bool), "--filter" ∉ l →
      parseArgsLoop (l ++ ["--filter"]) fp su = parseArgsLoop l fp su := by
  intro l
  induction l with
  | nil =>
    intro fp su _
    simp [parseArgsLoop]
  | cons a l ih =>
    intro fp su h
    have ha : a ≠ "--filter" := fun hc => h (hc ▸ List.mem_cons_self a l)
    have hl : "--filter" ∉ l := fun hc => h (List.mem_cons_of_mem a hc)
    cases l with
    | nil =>
      by_cases hu : a = "--uncovered"
      · simp [parseArgsLoop, hu, ha]
      · simp [parseArgsLoop, hu, ha]
    | cons b rest =>
      show parseArgsLoop (a :: b :: (rest ++ ["--filter"])) fp su = _
      by_cases hu : a = "--uncovered"
      · simp only [parseArgsLoop, if_neg ha, if_pos hu]
        exact ih fp true hl
      · simp only [parseArgsLoop, if_neg ha, if_neg hu]
        exact ih fp su hl

theorem parseArgsLoop_no_filter_fst :
    ∀ (l : List String) (fp : Option String) (su : Bool), "--filter" ∉ l →
      (parseArgsLoop l fp su).1 = fp := by
  intro l
  induction l with
  | nil =>
    intro fp su _
    rfl
  | cons a l ih =>
    intro fp su h
    have ha : a ≠ "--filter" := fun hc => h (hc ▸ List.mem_cons_self a l)
    have hl : "--filter" ∉ l := fun hc => h (List.mem_cons_of_mem a hc)
    cases l with
    | nil =>
      by_cases hu : a = "--uncovered"
      · simp [parseArgsLoop, hu, ha]
      · simp [parseArgsLoop, hu, ha]
    | cons b rest =>
      by_cases hu : a = "--uncovered"
      · simp only [parseArgsLoop, if_neg ha, if_pos hu]
        exact ih fp true hl
      · simp only [parseArgsLoop, if_neg ha, if_neg hu]
        exact ih fp su hl

theorem parseLcovBlock_false_eq (b : List Char) :
    parseLcovBlock false b = (parseLcovBlock true b).map forgetUncovered := by
  unfold parseLcovBlock
  cases hws : b.all isWSChar with
  | true => simp
  | false =>
    cases hsf : (linesOf b).findSome? sfValue? with
    | none => simp
    | some filename =>
      cases hlf : (linesOf b).findSome? lfValue? with
      | none =>
        cases hlh : (linesOf b).findSome? lhValue? with
        | none => simp
        | some lh => simp
      | some lf =>
        cases hlh : (linesOf b).findSome? lhValue? with
        | none => simp
        | some lh =>
          by_cases hflt : (containsL binMark filename || !containsL srcMark filename) = true
          · simp [hflt]
          · by_cases h0 : lf = 0
            · simp [hflt, h0]
            · simp [hflt, h0, forgetUncovered]

theorem parse_lcov_false_eq (content : String) :
    parse_lcov content false = (parse_lcov content true).map forgetUncovered :=
  (congrArg (fun f => List.filterMap f (lcovBlocks content))
    (funext parseLcovBlock_false_eq)).trans (List.map_filterMap _ _ _).symm

theorem sortRecords_map_forget (l : List CoverageRecord) :
    sortRecords (l.map forgetUncovered) = (sortRecords l).map forgetUncovered :=
  sortByKey_map forgetUncovered (fun r => r.coveragePercent) l

theorem renderLine_forget (r : CoverageRecord) :
    renderLine (forgetUncovered r) = renderLine r := rfl

theorem noFilterOut_map_forget (l : List CoverageRecord) :
    noFilterOut (l.map forgetUncovered) = noFilterOut l := by
  unfold noFilterOut
  rw [← List.map_take, List.map_map]
  rfl

/-! Claim theorems. -/

/-- Claim C1: `parse_lcov` processes each `end_of_record`-delimited
block independently; every block that has an `SF:` line whose path
passes the bin/src filters, an `LF:` line with a positive count, and an
`LH:` line yields exactly one record, whose `coveragePercent` is
`100 * LH / LF`; every block whose `LF:` line carries `0` yields no
record. -/
theorem claim_C1 (content : String) (inc : Bool) :
    parse_lcov content inc = (lcovBlocks content).filterMap (parseLcovBlock inc) ∧
    (∀ b f lf lh,
      (linesOf b).findSome? sfValue? = some f →
      containsL binMark f = false →
      containsL srcMark f = true →
      (linesOf b).findSome? lfValue? = some lf →
      (linesOf b).findSome? lhValue? = some lh →
      0 < lf →
      parseLcovBlock inc b =
        some { path := relpathOf f
               coveragePercent := 100 * (lh : ℚ) / (lf : ℚ)
               linesHit := lh
               linesFound := lf
               uncovered := if inc then some (uncoveredOf b) else none }) ∧
    (∀ b, (linesOf b).findSome? lfValue? = some 0 → parseLcovBlock inc b = none) := by
  refine ⟨rfl, ?_, ?_⟩
  · intro b f lf lh hsf hbin hsrc hlf hlh hpos
    have hws : b.all isWSChar = false := sf_not_all_ws hsf
    unfold parseLcovBlock
    rw [hws]
    simp only [Bool.false_eq_true, if_false, hsf, hbin, hsrc, hlf, hlh, Bool.not_true,
      Bool.or_false, if_neg (Nat.pos_iff_ne_zero.mp hpos)]
    have hpct : ((lh : ℚ) / (lf : ℚ)) * 100 = 100 * (lh : ℚ) / (lf : ℚ) := by ring
    rw [hpct]
  · intro b hlf0
    unfold parseLcovBlock
    cases hws : b.all isWSChar with
    | true => simp
    | false =>
      cases hsf : (linesOf b).findSome? sfValue? with
      | none => simp
      | some f =>
        cases hlh : (linesOf b).findSome? lhValue? with
        | none => simp [hlf0]
        | some lh =>
          by_cases hflt : (containsL binMark f || !containsL srcMark f) = true
          · simp [hflt]
          · simp [hflt, hlf0]

/-- Claim C1 witness: a concrete well-formed block yields exactly the
record with `coveragePercent = 100 * 5 / 10`. -/
theorem claim_C1_witness :
    parseLcovBlock false ("SF:/x/rain-tracker-service/src/a.c\nLF:10\nLH:5".data) =
      some { path := relpathOf ("/x/rain-tracker-service/src/a.c".data)
             coveragePercent := 100 * ((5 : Nat) : ℚ) / ((10 : Nat) : ℚ)
             linesHit := 5
             linesFound := 10
             uncovered := none } :=
  (claim_C1 "" false).2.1 ("SF:/x/rain-tracker-service/src/a.c\nLF:10\nLH:5".data)
    ("/x/rain-tracker-service/src/a.c".data) 10 5 (by decide) (by decide) (by decide)
    (by decide) (by decide) (by decide)

/-- Claim C2: a block whose raw `SF:` path contains `/bin/`, and a
block whose raw `SF:` path lacks `/src/`, yield no record, whatever the
block's other fields are. -/
theorem claim_C2 (content : String) (inc : Bool) :
    parse_lcov content inc = (lcovBlocks content).filterMap (parseLcovBlock inc) ∧
    (∀ b f, (linesOf b).findSome? sfValue? = some f →
      (containsL binMark f = true ∨ containsL srcMark f = false) →
      parseLcovBlock inc b = none) := by
  refine ⟨rfl, ?_⟩
  intro b f hsf hbad
  unfold parseLcovBlock
  cases hws : b.all isWSChar with
  | true => simp
  | false =>
    rcases hbad with h | h
    · simp [hsf, h]
    · simp [hsf, h]

/-- Claim C2 witness: the spec's scenario block, whose path is under
`src/` but also contains `/bin/`, is excluded. -/
theorem claim_C2_witness :
    parseLcovBlock false ("SF:/x/rain-tracker-service/src/bin/tool.c\nLF:10\nLH:5".data) = none :=
  (claim_C2 "" false).2 ("SF:/x/rain-tracker-service/src/bin/tool.c\nLF:10\nLH:5".data)
    ("/x/rain-tracker-service/src/bin/tool.c".data) (by decide) (Or.inl (by decide))

/-- Claim C3: the sort performed before rendering is a permutation of
the parsed records, and, tagging records with their parse position,
whenever record `A` precedes record `B` after sorting, either `A`'s
coverage percentage is strictly smaller, or the percentages are equal
and `A` appeared first in parse order (stability). -/
theorem claim_C3 (l : List CoverageRecord) :
    (sortRecords l).Perm l ∧
    sortRecords l = (sortPairs (withIdx 0 l)).map Prod.snd ∧
    (sortPairs (withIdx 0 l)).Pairwise (fun a b =>
      a.2.coveragePercent < b.2.coveragePercent ∨
        (a.2.coveragePercent = b.2.coveragePercent ∧ a.1 < b.1)) := by
  refine ⟨sortByKey_perm _ l, ?_, ?_⟩
  · have h := sortByKey_map Prod.snd (fun r : CoverageRecord => r.coveragePercent) (withIdx 0 l)
    rw [withIdx_map_snd] at h
    exact h
  · exact pairwise_sortByKey_stable (fun r : CoverageRecord => r.coveragePercent) (withIdx 0 l)
      (pairwise_fst_withIdx 0 l)

/-- Claim C4 counterexample: on the empty set of line numbers the
claim's joined token list is the empty string, but `format_line_ranges`
returns the literal `"none"`. -/
theorem claim_C4_counterexample :
    format_line_ranges [] = "none" ∧ claimRender [] = "" ∧
      format_line_ranges [] ≠ claimRender [] :=
  ⟨rfl, rfl, by decide⟩

/-- Claim C4 (amended: nonempty sets): on every nonempty list of line
numbers, `format_line_ranges` returns exactly the comma-and-space-joined
tokens of the maximal consecutive runs of the sorted list, a singleton
run rendered as the bare number; in particular the uncovered set
`{1, 3, 4}` produced by `DA:1,0  DA:2,3  DA:3,0  DA:4,0` renders as
`"1, 3-4"`.  (The empty set renders as `"none"`, not as the empty
join.) -/
theorem claim_C4 :
    (∀ l : List Nat, l ≠ [] → format_line_ranges l = claimRender l) ∧
    uncoveredOf ("DA:1,0\nDA:2,3\nDA:3,0\nDA:4,0".data) = [1, 3, 4] ∧
    format_line_ranges [1, 3, 4] = "1, 3-4" :=
  ⟨format_line_ranges_eq_claimRender, by decide, by decide⟩

/-- Claim C4 witness: the amended equation evaluated on the scenario's
uncovered set. -/
theorem claim_C4_witness :
    format_line_ranges [1, 3, 4] = claimRender [1, 3, 4] :=
  claim_C4.1 [1, 3, 4] (by decide)

/-- Claim C5: round trip of compression and expansion on the spec's
example — expanding `"1-3, 5, 7-9, 12"` yields exactly
`{1,2,3,5,7,8,9,12}`, and compressing that set yields exactly the same
string back. -/
theorem claim_C5 :
    expandRanges "1-3, 5, 7-9, 12" = [1, 2, 3, 5, 7, 8, 9, 12] ∧
    format_line_ranges [1, 2, 3, 5, 7, 8, 9, 12] = "1-3, 5, 7-9, 12" := by
  exact ⟨by decide, by decide⟩

theorem sortRecords_length (l : List CoverageRecord) : (sortRecords l).length = l.length :=
  (sortByKey_perm _ l).length_eq

set_option maxRecDepth 100000 in
/-- Claim C6 counterexample: on a report whose single record has a
70-character path, the no-filter output differs from the output the
claim describes, because the path column is not truncated to 60
characters. -/
theorem claim_C6_counterexample :
    mainOutput longPathContent [] ≠
      "Files with lowest coverage:\n" ::
        ((sortRecords (parse_lcov longPathContent false)).take 20).map renderLineTrunc := by
  with_unfolding_all decide

/-- Claim C6 (amended: no truncation): when no filter pattern is given,
the program prints the header and then exactly the first `min(n, 20)`
sorted records, one line per record, the path left-justified and
space-padded to a minimum width of 60 characters (longer paths are kept
whole, not truncated), the percentage to one decimal place in a
6-character field, and the hit/found counts right-aligned in 4-character
fields. -/
theorem claim_C6 (content : String) (args : List String)
    (h : (parseArgs args).1 = none ∨ (parseArgs args).1 = some "") :
    mainOutput content args =
      "Files with lowest coverage:\n" ::
        ((sortRecords (parse_lcov content (parseArgs args).2)).take 20).map renderLine ∧
    ((sortRecords (parse_lcov content (parseArgs args).2)).take 20).length =
      min (parse_lcov content (parseArgs args).2).length 20 := by
  constructor
  · unfold mainOutput
    rcases h with h | h
    · rw [h]
      rfl
    · rw [h]
      show renderMain (some "") (parseArgs args).2 content = _
      have hred : renderMain (some "") (parseArgs args).2 content =
          if ("" : String) = "" then
            noFilterOut (sortRecords (parse_lcov content (parseArgs args).2))
          else filterOut "" (parseArgs args).2
            (sortRecords (parse_lcov content (parseArgs args).2)) := rfl
      rw [hred, if_pos rfl]
      rfl
  · rw [List.length_take, sortRecords_length]
    exact Nat.min_comm _ _

/-- Claim C6 witness: the amended statement on the two-record report,
with no arguments at all. -/
theorem claim_C6_witness :
    mainOutput twoBlockContent [] =
      "Files with lowest coverage:\n" ::
        ((sortRecords (parse_lcov twoBlockContent (parseArgs []).2)).take 20).map renderLine ∧
    ((sortRecords (parse_lcov twoBlockContent (parseArgs []).2)).take 20).length =
      min (parse_lcov twoBlockContent (parseArgs []).2).length 20 :=
  claim_C6 twoBlockContent [] (Or.inl rfl)

/-- Claim C7 counterexample: with a filter pattern that matches no
record, the output is not the single no-files message alone — the
three-line banner is printed first. -/
theorem claim_C7_counterexample :
    mainOutput twoBlockContent ["--filter", "nomatch"] ≠
      ["No files found matching 'nomatch'"] := by
  with_unfolding_all decide

/-- Claim C7 (amended: banner included): when a nonempty filter pattern
is given and no record's path contains it, the program prints exactly
the three banner lines naming the pattern followed by the single
no-files message naming the pattern, and nothing else. -/
theorem claim_C7 (content p : String) (hp : p ≠ "")
    (h : ∀ r ∈ parse_lcov content false, containsL p.data r.path = false) :
    mainOutput content ["--filter", p] =
      [eqBar, "FILES MATCHING '" ++ p ++ "':", eqBar,
        "No files found matching '" ++ p ++ "'"] := by
  have hargs : parseArgs ["--filter", p] = (some p, false) := rfl
  unfold mainOutput
  rw [hargs]
  show renderMain (some p) false content = _
  have hred : renderMain (some p) false content =
      if p = "" then noFilterOut (sortRecords (parse_lcov content false))
      else filterOut p false (sortRecords (parse_lcov content false)) := rfl
  rw [hred, if_neg hp]
  have hfil : (sortRecords (parse_lcov content false)).filter
      (fun r => containsL p.data r.path) = [] := by
    rw [List.filter_eq_nil_iff]
    intro r hr
    have hrm : r ∈ parse_lcov content false :=
      (sortByKey_perm (fun r : CoverageRecord => r.coveragePercent) _).mem_iff.mp hr
    simp [h r hrm]
  unfold filterOut
  rw [hfil]
  rfl

/-- Claim C7 witness: the amended statement on the two-record report
with the pattern `nomatch`. -/
theorem claim_C7_witness :
    mainOutput twoBlockContent ["--filter", "nomatch"] =
      [eqBar, "FILES MATCHING '" ++ "nomatch" ++ "':", eqBar,
        "No files found matching '" ++ "nomatch" ++ "'"] :=
  claim_C7 twoBlockContent "nomatch" (by decide) (by decide)

/-- Claim C8: two-tier error handling — a missing report file makes
`parse_lcov` (and the whole program) fail with a propagated error,
while a block missing its `SF:`, `LF:` or `LH:` field, or carrying
`LF = 0`, is silently dropped and the remaining blocks are still
processed, each independently. -/
theorem claim_C8 :
    (∀ args, runProgram none args = Except.error ()) ∧
    (∀ inc, parseLcovFromFile none inc = Except.error ()) ∧
    (∀ inc b,
      ((linesOf b).findSome? sfValue? = none ∨
        (linesOf b).findSome? lfValue? = none ∨
        (linesOf b).findSome? lhValue? = none ∨
        (linesOf b).findSome? lfValue? = some 0) →
      parseLcovBlock inc b = none) ∧
    (∀ content inc,
      parse_lcov content inc = (lcovBlocks content).filterMap (parseLcovBlock inc)) := by
  refine ⟨fun args => rfl, fun inc => rfl, ?_, fun content inc => rfl⟩
  intro inc b hbad
  unfold parseLcovBlock
  cases hws : b.all isWSChar with
  | true => simp
  | false =>
    cases hsf : (linesOf b).findSome? sfValue? with
    | none => simp
    | some f =>
      cases hlf : (linesOf b).findSome? lfValue? with
      | none =>
        cases hlh : (linesOf b).findSome? lhValue? with
        | none => simp
        | some lh => simp
      | some lf =>
        cases hlh : (linesOf b).findSome? lhValue? with
        | none => simp
        | some lh =>
          rcases hbad with hc | hc | hc | hc
          · rw [hsf] at hc
            exact absurd hc (by simp)
          · rw [hlf] at hc
            exact absurd hc (by simp)
          · rw [hlh] at hc
            exact absurd hc (by simp)
          · rw [hlf] at hc
            injection hc with h0
            by_cases hflt : (containsL binMark f || !containsL srcMark f) = true
            · simp [hflt]
            · simp [hflt, h0]

/-- Claim C8 witness: a block with a valid path but `LF:0` is dropped. -/
theorem claim_C8_witness :
    parseLcovBlock false ("SF:/x/rain-tracker-service/src/a.c\nLF:0\nLH:7".data) = none :=
  claim_C8.2.2.1 false ("SF:/x/rain-tracker-service/src/a.c\nLF:0\nLH:7".data)
    (Or.inr (Or.inr (Or.inr (by decide))))

/-- Claim C9: `--uncovered` without `--filter` changes nothing — for
every report text, the run with only `--uncovered` prints exactly the
same lines as the run with no arguments. -/
theorem claim_C9 (content : String) :
    mainOutput content ["--uncovered"] = mainOutput content [] := by
  have h1 : parseArgs ["--uncovered"] = (none, true) := rfl
  have h2 : parseArgs ([] : List String) = (none, false) := rfl
  unfold mainOutput
  rw [h1, h2]
  show noFilterOut (sortRecords (parse_lcov content true)) =
    noFilterOut (sortRecords (parse_lcov content false))
  rw [parse_lcov_false_eq, sortRecords_map_forget, noFilterOut_map_forget]

/-- Claim C10: a trailing `--filter` with no value after it is silently
ignored — the run behaves exactly as without that token: no pattern is
recorded and the unfiltered top-20 table is printed. -/
theorem claim_C10 (content : String) (pre : List String) (h : "--filter" ∉ pre) :
    mainOutput content (pre ++ ["--filter"]) = mainOutput content pre ∧
    (parseArgs (pre ++ ["--filter"])).1 = none ∧
    mainOutput content (pre ++ ["--filter"]) =
      "Files with lowest coverage:\n" ::
        ((sortRecords (parse_lcov content (parseArgs pre).2)).take 20).map renderLine := by
  have h1 : parseArgs (pre ++ ["--filter"]) = parseArgs pre :=
    parseArgsLoop_append_filter pre none false h
  have h2 : (parseArgs pre).1 = none := parseArgsLoop_no_filter_fst pre none false h
  refine ⟨?_, ?_, ?_⟩
  · unfold mainOutput
    rw [h1]
  · rw [h1]
    exact h2
  · unfold mainOutput
    rw [h1, h2]
    rfl

/-- Claim C10 witness: `--uncovered --filter` (trailing valueless
`--filter`) on the two-record report. -/
theorem claim_C10_witness :
    mainOutput twoBlockContent (["--uncovered"] ++ ["--filter"]) =
        mainOutput twoBlockContent ["--uncovered"] ∧
    (parseArgs (["--uncovered"] ++ ["--filter"])).1 = none ∧
    mainOutput twoBlockContent (["--uncovered"] ++ ["--filter"]) =
      "Files with lowest coverage:\n" ::
        ((sortRecords (parse_lcov twoBlockContent (parseArgs ["--uncovered"]).2)).take 20).map
          renderLine :=
  claim_C10 twoBlockContent ["--uncovered"] (by decide)

end RainCoverage
